import Mathlib

/-!
Shallow embedding of `draw/draw.go` (package `draw`) of the repository
`yet-another-3d-thing`: a software rasterizer building an "edge matrix" of
homogeneous points (via point/edge/circle/curve builders) and drawing it onto a
framebuffer with an octant-classified Bresenham-style line rasterizer.

`float64` values are embedded as exact rationals (`ℚ`); the Go `int(f)`
conversion (truncation toward zero) becomes `truncInt`.  The external
collaborators (`matrix`, `display`, `math`) are not part of `src/`: the
`display` resolution constants are passed as parameters, the `math`
trigonometric routines as an abstract `FloatOps` record, and the `matrix`
operations are modelled from the spec (see the individual doc comments).
Mutation of the screen / edge matrix is embedded by explicit state passing;
writes through `plot` never feed back into loop control, so each loop is
embedded as the list of points it passes to `plot`, folded over the screen.
-/

namespace Draw

/-- A pixel color: an RGB-like triple of integers (Go `[]int` of length 3). -/
abbrev Color := ℤ × ℤ × ℤ

/-- Source `var DefaultDrawColor []int = []int{0, 0, 0}` — the process-wide default
draw color read by `plot`. -/
def DefaultDrawColor : Color := (0, 0, 0)

/-- The framebuffer `screen [][][]int`, embedded as a total map from
(row, column) to color; `plot` only ever writes cells inside
`[0, YRES) × [0, XRES)`, so out-of-range cells are never touched. -/
abbrev Screen := ℤ → ℤ → Color

/-- The Go `int(f)` conversion on a `float64`: truncation toward zero. -/
def truncInt (f : ℚ) : ℤ :=
  if 0 ≤ f then ⌊f⌋ else ⌈f⌉

/-- Function `float64ToInt` from the source: rounds a float without truncating it.
`if (f - float64(int(f)) < 0.5) { return int(f) }; return int(f + 1)`. -/
def float64ToInt (f : ℚ) : ℤ :=
  if f - truncInt f < 1/2 then truncInt f else truncInt (f + 1)

/-- The rounding rule exactly as the spec words it ("round-half-up: add 1 if
fractional part ≥ 0.5, else truncate"), to be compared with `float64ToInt`
from the source. -/
def specRound (f : ℚ) : ℤ :=
  if 1/2 ≤ f - truncInt f then truncInt f + 1 else truncInt f

/-- Function `plot` from the source: `newX, newY := float64ToInt(x), display.YRES -
float64ToInt(y) - 1`; writes `DefaultDrawColor` at `screen[newY][newX]` only
when `newX ∈ [0, XRES)` and `newY ∈ [0, YRES)`.  The `display` resolution
constants are parameters here. -/
def plot (XRES YRES : ℤ) (s : Screen) (x y : ℚ) : Screen :=
  let newX := float64ToInt x
  let newY := YRES - float64ToInt y - 1
  if 0 ≤ newX ∧ newX < XRES ∧ 0 ≤ newY ∧ newY < YRES then
    fun r c => if r = newY ∧ c = newX then DefaultDrawColor else s r c
  else s

/-- The edge matrix `m [][]float64`: four rows (x, y, z, w), each a list of
per-column entries; columns are shared indices into the four rows. -/
structure EdgeMatrix where
  xs : List ℚ
  ys : List ℚ
  zs : List ℚ
  ws : List ℚ
  deriving DecidableEq

/-- Source `AddPoint(m, x, y, z)`: appends `x`, `y`, `z`, `1` to rows 0–3. -/
def addPoint (m : EdgeMatrix) (x y z : ℚ) : EdgeMatrix :=
  ⟨m.xs ++ [x], m.ys ++ [y], m.zs ++ [z], m.ws ++ [1]⟩

/-- Source `AddEdge(m, params ...float64)`: reads `params[0]` … `params[5]` (a Go
index panic — embedded as `none` — when fewer than 6 values are supplied;
values past the sixth are never read) and appends the two endpoints with
`AddPoint`. -/
def addEdge (m : EdgeMatrix) (params : List ℚ) : Option EdgeMatrix :=
  if 6 ≤ params.length then
    some (addPoint (addPoint m (params.getD 0 0) (params.getD 1 0) (params.getD 2 0))
      (params.getD 3 0) (params.getD 4 0) (params.getD 5 0))
  else
    none

/-- The floating-point library routines consumed by `AddCircle`
(`math.Cos`, `math.Sin`, `math.Pi`), kept abstract: the embedding is
parametric in them. -/
structure FloatOps where
  cos : ℚ → ℚ
  sin : ℚ → ℚ
  pi : ℚ

/-- The parameter loop shared by `AddCircle` and `AddCurve`:
`for t := 0.0; t < 1.0; t += step` — the list of `t` values the loop body
runs on.  The Go loop never terminates when `step ≤ 0`; the embedding guards
on `0 < step` (every use in the claims has a positive step). -/
def tSamples (step t : ℚ) : List ℚ :=
  if hs : 0 < step then
    if h : t < 1 then t :: tSamples step (t + step) else []
  else []
termination_by ⌈(1 - t) / step⌉.toNat
decreasing_by
  have h1 : (0:ℚ) < (1 - t) / step := div_pos (by linarith) hs
  have h2 : (1 - (t + step)) / step = (1 - t) / step - 1 := by
    field_simp
    ring
  rw [h2, Int.ceil_sub_one]
  have h3 : (1:ℤ) ≤ ⌈(1 - t) / step⌉ := by
    exact_mod_cast Int.ceil_pos.mpr h1
  omega

/-- The loop body of `AddCircle` over the 100 samples `t = 0, 0.01, …`:
`x := r*cos(2πt) + cx`, `y := r*sin(2πt) + cy`, appended with z = 0. -/
def circlePoints (f : FloatOps) (cx cy r : ℚ) : List (ℚ × ℚ × ℚ) :=
  (tSamples (1/100) 0).map fun t =>
    (r * f.cos (2 * f.pi * t) + cx, r * f.sin (2 * f.pi * t) + cy, 0)

/-- Appends a list of (x, y, z) triples to an edge matrix with `addPoint`,
in order — the shape of the matrix effect of every tessellation loop. -/
def appendPoints (m : EdgeMatrix) (ps : List (ℚ × ℚ × ℚ)) : EdgeMatrix :=
  ps.foldl (fun acc p => addPoint acc p.1 p.2.1 p.2.2) m

/-- Source `AddCircle(m, params ...float64)` with `params = [cx, cy, cz, r]`: the
z of the center (`params[2]`) is read but unused; each sample is appended with
z = 0. -/
def addCircle (f : FloatOps) (m : EdgeMatrix) (cx cy cz r : ℚ) : EdgeMatrix :=
  appendPoints m (circlePoints f cx cy r)

/-- The `"hermite"` curve-type selector string. -/
def hermiteStr : String := "hermite"

/-- The `"bezier"` curve-type selector string. -/
def bezierStr : String := "bezier"

/-- The diagnostic `AddCurve` prints (via `println`) for an unsupported curve
type. -/
def addCurveDiag : String :=
  "Curve type supplied to AddCurve was not \"hermite\" or \"bezier\"."

/-- Modelled from the spec: the matrix collaborator multiplication of a
1×4 coordinate row vector against a 4×4 basis-coefficient matrix
(`matrix.MultiplyMatrices` storing the product back through its second
pointer argument), giving the coefficient row of the cubic. -/
def rowMulSpec (v : List ℚ) (M : List (List ℚ)) : List ℚ :=
  (List.range 4).map fun j =>
    ((List.range 4).map fun i => v.getD i 0 * (M.getD i []).getD j 0).sum

/-- Source `CubicEval(x, coefs)`: `y += coefs[0][3-i] * x^i` for `i = 3, 2, 1, 0`,
i.e. the coefficient row `coefs[0]` is ordered highest degree first. -/
def cubicEval (x : ℚ) (coefs : List (List ℚ)) : ℚ :=
  (coefs.getD 0 []).getD 0 0 * x ^ 3 + (coefs.getD 0 []).getD 1 0 * x ^ 2 +
    (coefs.getD 0 []).getD 2 0 * x + (coefs.getD 0 []).getD 3 0

/-- The points the `AddCurve` sampling loop appends once the coefficient
generator `g` has been selected: `(x(t), y(t), 0)` for the loop `t`
values, with per-axis coefficients from the row-vector-times-basis
products. -/
def curveSamples (g : List (List ℚ)) (x0 y0 x1 y1 x2 y2 x3 y3 step : ℚ) :
    List (ℚ × ℚ × ℚ) :=
  (tSamples step 0).map fun t =>
    (cubicEval t [rowMulSpec [x0, x1, x2, x3] g],
      cubicEval t [rowMulSpec [y0, y1, y2, y3] g], 0)

/-- Modelled from the spec: the fixed 4×4 Hermite
basis-coefficient matrix (`matrix.MakeHermite`), mapping the row vector
(p0, p1, m0, m1) to coefficients (2p0−2p1+m0+m1, −3p0+3p1−2m0−m1, m0, p0),
highest degree first. -/
def hermiteBasis : List (List ℚ) :=
  [[2, -3, 0, 1], [-2, 3, 0, 0], [1, -2, 1, 0], [1, -1, 0, 0]]

/-- Modelled from the spec: the fixed 4×4 Bezier
basis-coefficient matrix (`matrix.MakeBezier`), mapping the row vector
(p0, p1, p2, p3) to coefficients (−p0+3p1−3p2+p3, 3p0−6p1+3p2, −3p0+3p1, p0),
highest degree first. -/
def bezierBasis : List (List ℚ) :=
  [[-1, 3, -3, 1], [3, -6, 3, 0], [-3, 3, 0, 0], [1, 0, 0, 0]]

/-- Source `AddCurve(m, x0,y0, …, x3,y3, step, curveType)`, with the
two collaborator basis matrices as parameters `hM` (what `MakeHermite`
returns) and `bM` (what `MakeBezier` returns).  NOTE (faithful to the
source): the `switch` assigns `coefGenerator = matrix.MakeBezier()` in the
`"hermite"` case and `coefGenerator = matrix.MakeHermite()` in the
`"bezier"` case.  The second component of the result is the diagnostic `println`
output, `none` when nothing is printed. -/
def addCurve (hM bM : List (List ℚ)) (m : EdgeMatrix)
    (x0 y0 x1 y1 x2 y2 x3 y3 step : ℚ) (curveType : String) :
    EdgeMatrix × Option String :=
  if curveType = hermiteStr then
    (appendPoints m (curveSamples bM x0 y0 x1 y1 x2 y2 x3 y3 step), none)
  else if curveType = bezierStr then
    (appendPoints m (curveSamples hM x0 y0 x1 y1 x2 y2 x3 y3 step), none)
  else
    (m, some addCurveDiag)

/-- Function `AddCurve` as claim C2 words it: the basis-coefficient matrix of the
selected curve family — the Hermite basis for `"hermite"`, the Bezier basis
for `"bezier"`. -/
def addCurveSpec (hM bM : List (List ℚ)) (m : EdgeMatrix)
    (x0 y0 x1 y1 x2 y2 x3 y3 step : ℚ) (curveType : String) :
    EdgeMatrix × Option String :=
  if curveType = hermiteStr then
    (appendPoints m (curveSamples hM x0 y0 x1 y1 x2 y2 x3 y3 step), none)
  else if curveType = bezierStr then
    (appendPoints m (curveSamples bM x0 y0 x1 y1 x2 y2 x3 y3 step), none)
  else
    (m, some addCurveDiag)

/-- The vertical branch of `DrawLine` (`B == 0`): after ordering so `y ≤ y1`,
`for y <= y1 { plot(screen, x, y); y++ }` — as the list of plotted points. -/
def verticalPoints (x y y1 : ℚ) : List (ℚ × ℚ) :=
  if h : y ≤ y1 then (x, y) :: verticalPoints x (y + 1) y1 else []
termination_by (⌈y1 - y⌉ + 1).toNat
decreasing_by
  have h1 : y1 - (y + 1) = y1 - y - 1 := by ring
  have h2 : (0:ℤ) ≤ ⌈y1 - y⌉ := Int.ceil_nonneg (by linarith)
  rw [h1, Int.ceil_sub_one]
  omega

/-- Octant-1 loop of `DrawLine` (0 ≤ slope ≤ 1), `d` initialized to `2A + B`
by the caller: `for x <= x1 && y <= y1 { plot(x, y); if d > 0 { y++; d += 2B };
x++; d += 2A }` — as the list of plotted points. -/
def octant1 (A B x1 y1 x y d : ℚ) : List (ℚ × ℚ) :=
  if h : x ≤ x1 ∧ y ≤ y1 then
    (x, y) ::
      octant1 A B x1 y1 (x + 1) (if 0 < d then y + 1 else y)
        ((if 0 < d then d + 2 * B else d) + 2 * A)
  else []
termination_by (⌈x1 - x⌉ + 1).toNat
decreasing_by
  have h1 : x1 - (x + 1) = x1 - x - 1 := by ring
  have h2 : (0:ℤ) ≤ ⌈x1 - x⌉ := Int.ceil_nonneg (by linarith [h.1])
  rw [h1, Int.ceil_sub_one]
  omega

/-- Octant-2 loop of `DrawLine` (slope > 1), `d` initialized to `A + 2B` by
the caller: `for x <= x1 && y <= y1 { plot(x, y); if d < 0 { x++; d += 2A };
y++; d += 2B }`. -/
def octant2 (A B x1 y1 x y d : ℚ) : List (ℚ × ℚ) :=
  if h : x ≤ x1 ∧ y ≤ y1 then
    (x, y) ::
      octant2 A B x1 y1 (if d < 0 then x + 1 else x) (y + 1)
        ((if d < 0 then d + 2 * A else d) + 2 * B)
  else []
termination_by (⌈y1 - y⌉ + 1).toNat
decreasing_by
  have h1 : y1 - (y + 1) = y1 - y - 1 := by ring
  have h2 : (0:ℤ) ≤ ⌈y1 - y⌉ := Int.ceil_nonneg (by linarith [h.2])
  rw [h1, Int.ceil_sub_one]
  omega

/-- Octant-8 loop of `DrawLine` (−1 ≤ slope < 0), `d` initialized to `2A − B`
by the caller: `for x <= x1 && y >= y1 { plot(x, y); if d < 0 { y--; d -= 2B };
x++; d += 2A }`. -/
def octant8 (A B x1 y1 x y d : ℚ) : List (ℚ × ℚ) :=
  if h : x ≤ x1 ∧ y1 ≤ y then
    (x, y) ::
      octant8 A B x1 y1 (x + 1) (if d < 0 then y - 1 else y)
        ((if d < 0 then d - 2 * B else d) + 2 * A)
  else []
termination_by (⌈x1 - x⌉ + 1).toNat
decreasing_by
  have h1 : x1 - (x + 1) = x1 - x - 1 := by ring
  have h2 : (0:ℤ) ≤ ⌈x1 - x⌉ := Int.ceil_nonneg (by linarith [h.1])
  rw [h1, Int.ceil_sub_one]
  omega

/-- Octant-7 loop of `DrawLine` (slope < −1), `d` initialized to `A − 2B` by
the caller: `for x <= x1 && y >= y1 { plot(x, y); if d > 0 { x++; d += 2A };
y--; d -= 2B }`. -/
def octant7 (A B x1 y1 x y d : ℚ) : List (ℚ × ℚ) :=
  if h : x ≤ x1 ∧ y1 ≤ y then
    (x, y) ::
      octant7 A B x1 y1 (if 0 < d then x + 1 else x) (y - 1)
        ((if 0 < d then d + 2 * A else d) - 2 * B)
  else []
termination_by (⌈y - y1⌉ + 1).toNat
decreasing_by
  have h1 : y - 1 - y1 = y - y1 - 1 := by ring
  have h2 : (0:ℤ) ≤ ⌈y - y1⌉ := Int.ceil_nonneg (by linarith [h.2])
  rw [h1, Int.ceil_sub_one]
  omega

/-- Core of `DrawLine` after the initial endpoint swap (so `x0 ≤ x1` here): sets
`A := y1 - y0`, `B := x0 - x1`, dispatches on the vertical case and the four
slope ranges (the four `if` statements of the source are disjoint, so they are
embedded as guarded appends), each loop starting at `x = x0`, `y = y0` with
its own initial decision variable. -/
def drawLineCore (x0 y0 x1 y1 : ℚ) : List (ℚ × ℚ) :=
  let A := y1 - y0
  let B := x0 - x1
  if B = 0 then
    if y1 < y0 then verticalPoints x0 y1 y0 else verticalPoints x0 y0 y1
  else
    let slope := A / (-B)
    (if 0 ≤ slope ∧ slope ≤ 1 then octant1 A B x1 y1 x0 y0 (2 * A + B) else [])
      ++ (if 1 < slope then octant2 A B x1 y1 x0 y0 (A + 2 * B) else [])
      ++ (if slope < 0 ∧ -1 ≤ slope then octant8 A B x1 y1 x0 y0 (2 * A - B) else [])
      ++ (if slope < -1 then octant7 A B x1 y1 x0 y0 (A - 2 * B) else [])

/-- Source `DrawLine(screen, x0, y0, x1, y1)` as the ordered list of points it passes
to `plot`: swaps the endpoints when `x1 < x0`, then runs the core. -/
def drawLinePoints (x0 y0 x1 y1 : ℚ) : List (ℚ × ℚ) :=
  if x1 < x0 then drawLineCore x1 y1 x0 y0 else drawLineCore x0 y0 x1 y1

/-- The effect of `DrawLine` on the screen: each point in plot-call order is
written with `plot` (the screen is never read by the loops, so the trace-fold
is exact). -/
def drawLine (XRES YRES : ℤ) (s : Screen) (x0 y0 x1 y1 : ℚ) : Screen :=
  (drawLinePoints x0 y0 x1 y1).foldl (fun sc p => plot XRES YRES sc p.1 p.2) s

/-- Source `DrawLines(edges, screen)`: `for i := 0; i < len(edges[0]) - 1; i++`
draws the segment from column `i` to column `i+1` (`matrix.ExtractColumn`,
modelled from the spec as reading the four rows at index `i`; only rows 0 and
1 are consumed). -/
def drawLines (XRES YRES : ℤ) (edges : EdgeMatrix) (s : Screen) : Screen :=
  (List.range (edges.xs.length - 1)).foldl
    (fun sc i =>
      drawLine XRES YRES sc (edges.xs.getD i 0) (edges.ys.getD i 0)
        (edges.xs.getD (i + 1) 0) (edges.ys.getD (i + 1) 0))
    s

/-- An empty edge matrix, as a caller would create it before the builders
grow it. -/
def emptyMatrix : EdgeMatrix := ⟨[], [], [], []⟩

/-- A concrete instance of the trigonometric collaborator satisfying the
Pythagorean identity, used to instantiate parametric statements. -/
def unitOps : FloatOps := ⟨fun _ => 1, fun _ => 0, 0⟩

/-- A framebuffer holding the default color everywhere. -/
def blankScreen : Screen := fun _ _ => DefaultDrawColor

/-- A curve-type string that is neither `"hermite"` nor `"bezier"`. -/
def circleStr : String := "circle"

/-! ### Helper lemmas -/

theorem truncInt_intCast (n : ℤ) : truncInt (n : ℚ) = n := by
  unfold truncInt
  split_ifs <;> simp

theorem float64ToInt_intCast (n : ℤ) : float64ToInt (n : ℚ) = n := by
  unfold float64ToInt
  rw [truncInt_intCast]
  norm_num

/-! ### Claim theorems -/

/-- C4: the rounding function used by `plot` implements round-half-up — for
every `f` it returns the truncation of `f` when the fractional part
`f − trunc f` is strictly below 1/2 and `trunc (f + 1)` (= `trunc f + 1`,
the "add 1" rule of the spec) otherwise; in particular 2.49 rounds to 2, 2.5
rounds to 3 and −0.5 rounds to 0. -/
theorem float64ToInt_round_half_up :
    (∀ f : ℚ, float64ToInt f = specRound f)
    ∧ float64ToInt (249/100) = 2 ∧ float64ToInt (5/2) = 3
    ∧ float64ToInt (-(1/2)) = 0 := by
  refine ⟨fun f => ?_, by norm_num [float64ToInt, truncInt],
    by norm_num [float64ToInt, truncInt], by norm_num [float64ToInt, truncInt]⟩
  unfold float64ToInt specRound
  by_cases hc : f - truncInt f < 1/2
  · rw [if_pos hc, if_neg (by linarith)]
  · rw [if_neg hc, if_pos (by linarith)]
    have hf : 0 ≤ f := by
      by_contra hneg
      push_neg at hneg
      have h1 : truncInt f = ⌈f⌉ := by
        unfold truncInt
        rw [if_neg (by linarith)]
      have h2 : f ≤ ⌈f⌉ := Int.le_ceil f
      rw [h1] at hc
      push_neg at hc
      linarith
    have h0 : truncInt f = ⌊f⌋ := by
      unfold truncInt
      rw [if_pos hf]
    have h1 : truncInt (f + 1) = ⌊f⌋ + 1 := by
      unfold truncInt
      rw [if_pos (by linarith), ← Int.floor_add_one]
    rw [h0, h1]

/-- C5: `plot` writes a pixel exactly when the rounded, y-flipped coordinates
`col = round x`, `row = YRES − round y − 1` lie in `[0, XRES) × [0, YRES)`,
storing the default draw color there; out-of-bounds coordinates such as
`(XRES, 0)` or `(−1, 0)` leave the framebuffer untouched. -/
theorem plot_writes_iff_in_bounds :
    (∀ (XRES YRES : ℤ) (s : Screen) (x y : ℚ) (r c : ℤ),
      plot XRES YRES s x y r c =
        if 0 ≤ float64ToInt x ∧ float64ToInt x < XRES
            ∧ 0 ≤ YRES - float64ToInt y - 1 ∧ YRES - float64ToInt y - 1 < YRES
            ∧ r = YRES - float64ToInt y - 1 ∧ c = float64ToInt x
        then DefaultDrawColor else s r c)
    ∧ (∀ (XRES YRES : ℤ) (s : Screen), plot XRES YRES s (XRES : ℚ) 0 = s)
    ∧ (∀ (XRES YRES : ℤ) (s : Screen), plot XRES YRES s (-1 : ℚ) 0 = s) := by
  refine ⟨fun XRES YRES s x y r c => ?_, fun XRES YRES s => ?_, fun XRES YRES s => ?_⟩
  · unfold plot
    by_cases hb : 0 ≤ float64ToInt x ∧ float64ToInt x < XRES
        ∧ 0 ≤ YRES - float64ToInt y - 1 ∧ YRES - float64ToInt y - 1 < YRES
    · rw [if_pos hb]
      by_cases hrc : r = YRES - float64ToInt y - 1 ∧ c = float64ToInt x
      · rw [if_pos hrc, if_pos ⟨hb.1, hb.2.1, hb.2.2.1, hb.2.2.2, hrc.1, hrc.2⟩]
      · rw [if_neg hrc, if_neg (by tauto)]
    · rw [if_neg hb, if_neg (by tauto)]
  · unfold plot
    rw [float64ToInt_intCast]
    rw [if_neg (by omega)]
  · unfold plot
    have h1 : float64ToInt (-1 : ℚ) = -1 := by
      have := float64ToInt_intCast (-1)
      norm_num at this
      exact this
    rw [h1, if_neg (by omega)]

theorem drawLineCore_octant1 (x0 y0 x1 y1 : ℚ) (hB : x0 - x1 ≠ 0)
    (h0 : 0 ≤ (y1 - y0) / (-(x0 - x1))) (h1 : (y1 - y0) / (-(x0 - x1)) ≤ 1) :
    drawLineCore x0 y0 x1 y1 =
      octant1 (y1 - y0) (x0 - x1) x1 y1 x0 y0 (2 * (y1 - y0) + (x0 - x1)) := by
  unfold drawLineCore
  simp only [if_neg hB]
  rw [if_pos ⟨h0, h1⟩, if_neg (not_lt.mpr h1),
    if_neg (fun hc => absurd hc.1 (not_lt.mpr h0)),
    if_neg (not_lt.mpr (by linarith))]
  simp

/-- C1: for every segment whose post-swap slope lies in [0, 1] with nonzero
run, `DrawLine` plots exactly the octant-1 point sequence — starting at the
(swapped) first endpoint with decision variable `d = 2A + B`
(`A = y1 − y0`, `B = x0 − x1`) — and the octant-1 loop plots the current
point while `x ≤ x1 ∧ y ≤ y1`, stepping `y` by 1 and `d` by `2B` exactly
when `d > 0`, then always stepping `x` by 1 and `d` by `2A`. -/
theorem drawLine_octant1_refines (x0 y0 x1 y1 a0 b0 a1 b1 : ℚ)
    (hn : (a0, b0, a1, b1) = if x1 < x0 then (x1, y1, x0, y0) else (x0, y0, x1, y1))
    (hB : a0 - a1 ≠ 0)
    (h0 : 0 ≤ (b1 - b0) / (-(a0 - a1)))
    (h1 : (b1 - b0) / (-(a0 - a1)) ≤ 1) :
    drawLinePoints x0 y0 x1 y1 =
      octant1 (b1 - b0) (a0 - a1) a1 b1 a0 b0 (2 * (b1 - b0) + (a0 - a1))
    ∧ ∀ x y d : ℚ, octant1 (b1 - b0) (a0 - a1) a1 b1 x y d =
        if x ≤ a1 ∧ y ≤ b1 then
          (x, y) ::
            octant1 (b1 - b0) (a0 - a1) a1 b1 (x + 1) (if 0 < d then y + 1 else y)
              ((if 0 < d then d + 2 * (a0 - a1) else d) + 2 * (b1 - b0))
        else []
    := by
  constructor
  · by_cases hlt : x1 < x0
    · rw [if_pos hlt] at hn
      simp only [Prod.mk.injEq] at hn
      obtain ⟨ha0, hb0, ha1, hb1⟩ := hn
      subst ha0; subst hb0; subst ha1; subst hb1
      unfold drawLinePoints
      rw [if_pos hlt]
      exact drawLineCore_octant1 a0 b0 a1 b1 hB h0 h1
    · rw [if_neg hlt] at hn
      simp only [Prod.mk.injEq] at hn
      obtain ⟨ha0, hb0, ha1, hb1⟩ := hn
      subst ha0; subst hb0; subst ha1; subst hb1
      unfold drawLinePoints
      rw [if_neg hlt]
      exact drawLineCore_octant1 a0 b0 a1 b1 hB h0 h1
  · intro x y d
    conv_lhs => rw [octant1.eq_def]
    split_ifs <;> rfl

/-- Witness for C1 at the segment (0,0)–(3,2): slope 2/3 ∈ [0,1], run ≠ 0. -/
theorem drawLine_octant1_refines_witness :
    ((0:ℚ) - 3 ≠ 0 ∧ 0 ≤ ((2:ℚ) - 0) / (-((0:ℚ) - 3)) ∧ ((2:ℚ) - 0) / (-((0:ℚ) - 3)) ≤ 1)
    ∧ (drawLinePoints 0 0 3 2 =
        octant1 (2 - 0) (0 - 3) 3 2 0 0 (2 * (2 - 0) + (0 - 3))
      ∧ ∀ x y d : ℚ, octant1 (2 - 0) (0 - 3) 3 2 x y d =
          if x ≤ 3 ∧ y ≤ 2 then
            (x, y) ::
              octant1 (2 - 0) (0 - 3) 3 2 (x + 1) (if 0 < d then y + 1 else y)
                ((if 0 < d then d + 2 * (0 - 3) else d) + 2 * (2 - 0))
          else []) :=
  ⟨by norm_num,
    drawLine_octant1_refines 0 0 3 2 0 0 3 2 (by norm_num) (by norm_num)
      (by norm_num) (by norm_num)⟩

/-- C6: a degenerate segment (coincident endpoints) terminates with exactly
one `plot` call, at that coordinate — so the screen effect of `DrawLine` is a
single `plot` (which rounds, flips y, and clips). -/
theorem drawLine_degenerate :
    ∀ (x0 y0 : ℚ) (XRES YRES : ℤ) (s : Screen),
      drawLinePoints x0 y0 x0 y0 = [(x0, y0)]
      ∧ drawLine XRES YRES s x0 y0 x0 y0 = plot XRES YRES s x0 y0 := by
  intro x0 y0 XRES YRES s
  have hpts : drawLinePoints x0 y0 x0 y0 = [(x0, y0)] := by
    unfold drawLinePoints
    rw [if_neg (lt_irrefl x0)]
    unfold drawLineCore
    simp only [sub_self, if_pos rfl, if_neg (lt_irrefl y0)]
    rw [verticalPoints, dif_pos (le_refl y0), verticalPoints,
      dif_neg (by linarith : ¬ y0 + 1 ≤ y0)]
    simp
  refine ⟨hpts, ?_⟩
  unfold drawLine
  rw [hpts]
  rfl

theorem tSamples_cent (n : ℕ) : ∀ k : ℕ, k + n = 100 →
    tSamples (1/100) ((k : ℚ) / 100) =
      (List.range n).map fun j => ((k + j : ℕ) : ℚ) / 100 := by
  induction n with
  | zero =>
    intro k hk
    have hk' : k = 100 := by omega
    subst hk'
    rw [tSamples, dif_pos (by norm_num), dif_neg (by norm_num)]
    simp
  | succ n ih =>
    intro k hk
    have hk100 : k < 100 := by omega
    have hlt : (k : ℚ) / 100 < 1 := by
      rw [div_lt_one (by norm_num)]
      exact_mod_cast hk100
    rw [tSamples, dif_pos (by norm_num), dif_pos hlt]
    have hstep : (k : ℚ) / 100 + 1/100 = ((k + 1 : ℕ) : ℚ) / 100 := by
      push_cast
      ring
    rw [hstep, ih (k + 1) (by omega), List.range_succ_eq_map]
    simp only [List.map_cons, List.map_map]
    refine List.cons_eq_cons.mpr ⟨?_, ?_⟩
    · push_cast
      ring
    · apply List.map_congr_left
      intro j hj
      simp only [Function.comp_apply]
      push_cast
      ring

theorem tSamples_hundred :
    tSamples (1/100) 0 = (List.range 100).map fun k : ℕ => (k : ℚ) / 100 := by
  have h := tSamples_cent 100 0 rfl
  simpa using h

theorem appendPoints_xs_length (ps : List (ℚ × ℚ × ℚ)) :
    ∀ m : EdgeMatrix, (appendPoints m ps).xs.length = m.xs.length + ps.length := by
  induction ps with
  | nil => intro m; simp [appendPoints]
  | cons p ps ih =>
    intro m
    show (appendPoints (addPoint m p.1 p.2.1 p.2.2) ps).xs.length = _
    rw [ih]
    simp [addPoint]
    omega

theorem appendPoints_ws_one (ps : List (ℚ × ℚ × ℚ)) :
    ∀ m : EdgeMatrix, (∀ w ∈ m.ws, w = 1) →
      ∀ w ∈ (appendPoints m ps).ws, w = 1 := by
  induction ps with
  | nil => intro m hm; exact hm
  | cons p ps ih =>
    intro m hm
    show ∀ w ∈ (appendPoints (addPoint m p.1 p.2.1 p.2.2) ps).ws, w = 1
    apply ih
    intro w hw
    rcases List.mem_append.mp hw with h | h
    · exact hm w h
    · simpa using h

/-- C3: `AddCircle` appends exactly 100 points, all with z-coordinate 0, the
k-th being `(r·cos(2π·(k/100)) + cx, r·sin(2π·(k/100)) + cy, 0)`; whenever
the trigonometric routines satisfy the Pythagorean identity (the float
routines do so to within floating tolerance), every appended point lies at
distance `r` from the center `(cx, cy)`. -/
theorem addCircle_hundred_points :
    ∀ (f : FloatOps) (m : EdgeMatrix) (cx cy cz r : ℚ),
      (circlePoints f cx cy r).length = 100
      ∧ (addCircle f m cx cy cz r).xs.length = m.xs.length + 100
      ∧ (∀ k : ℕ, k < 100 → (circlePoints f cx cy r).getD k (0, 0, 0) =
          (r * f.cos (2 * f.pi * ((k : ℚ) / 100)) + cx,
            r * f.sin (2 * f.pi * ((k : ℚ) / 100)) + cy, 0))
      ∧ ((∀ θ : ℚ, f.cos θ ^ 2 + f.sin θ ^ 2 = 1) →
          ∀ p ∈ circlePoints f cx cy r,
            (p.1 - cx) ^ 2 + (p.2.1 - cy) ^ 2 = r ^ 2 ∧ p.2.2 = 0) := by
  intro f m cx cy cz r
  have hlen : (circlePoints f cx cy r).length = 100 := by
    rw [circlePoints, tSamples_hundred]
    simp
  refine ⟨hlen, ?_, ?_, ?_⟩
  · rw [addCircle, appendPoints_xs_length, hlen]
  · intro k hk
    rw [circlePoints, tSamples_hundred, List.map_map]
    rw [List.getD_eq_getElem?_getD, List.getElem?_map, List.getElem?_range hk]
    rfl
  · intro hunit p hp
    rw [circlePoints, List.mem_map] at hp
    obtain ⟨t, _, rfl⟩ := hp
    refine ⟨?_, rfl⟩
    have h := hunit (2 * f.pi * t)
    linear_combination r ^ 2 * h

/-- Witness for C3 with a concrete trig collaborator satisfying the
Pythagorean identity. -/
theorem addCircle_hundred_points_witness :
    (∀ θ : ℚ, unitOps.cos θ ^ 2 + unitOps.sin θ ^ 2 = 1)
    ∧ ∀ p ∈ circlePoints unitOps 0 0 1,
        (p.1 - 0) ^ 2 + (p.2.1 - 0) ^ 2 = (1:ℚ) ^ 2 ∧ p.2.2 = 0 :=
  ⟨fun θ => by simp [unitOps],
    (addCircle_hundred_points unitOps emptyMatrix 0 0 0 1).2.2.2
      (fun θ => by simp [unitOps])⟩

/-- C7: `AddCurve` with a curve type other than `"hermite"` or `"bezier"`
returns the matrix unchanged (no point appended, same columns), emits the
diagnostic, and returns normally. -/
theorem addCurve_unknown_type (hM bM : List (List ℚ)) (m : EdgeMatrix)
    (x0 y0 x1 y1 x2 y2 x3 y3 step : ℚ) (ct : String)
    (h1 : ct ≠ hermiteStr) (h2 : ct ≠ bezierStr) :
    addCurve hM bM m x0 y0 x1 y1 x2 y2 x3 y3 step ct = (m, some addCurveDiag) := by
  rw [addCurve, if_neg h1, if_neg h2]

/-- Witness for C7 at the unsupported curve type `"circle"`. -/
theorem addCurve_unknown_type_witness :
    (circleStr ≠ hermiteStr ∧ circleStr ≠ bezierStr)
    ∧ addCurve [] [] emptyMatrix 0 0 0 0 0 0 0 0 1 circleStr =
        (emptyMatrix, some addCurveDiag) :=
  ⟨⟨by decide, by decide⟩,
    addCurve_unknown_type [] [] emptyMatrix 0 0 0 0 0 0 0 0 1 circleStr
      (by decide) (by decide)⟩

/-- Counterexample to C8 as stated: a call with seven values does not fail —
it succeeds, appending the two endpoints built from the first six values. -/
theorem addEdge_seven_values_succeeds :
    addEdge emptyMatrix [0, 0, 0, 1, 1, 1, 2] =
      some (addPoint (addPoint emptyMatrix 0 0 0) 1 1 1) := by
  rfl

/-- C8 (amended): `AddEdge` appends the two 3D endpoints taken from the
first six values as two adjacent columns, in order; it fails (index panic)
exactly when fewer than 6 values are supplied — values beyond the sixth are
ignored, not rejected. -/
theorem addEdge_appends_two_columns (m : EdgeMatrix) (ps : List ℚ) :
    (addEdge m ps = none ↔ ps.length < 6)
    ∧ (6 ≤ ps.length → addEdge m ps =
        some ⟨m.xs ++ [ps.getD 0 0, ps.getD 3 0], m.ys ++ [ps.getD 1 0, ps.getD 4 0],
          m.zs ++ [ps.getD 2 0, ps.getD 5 0], m.ws ++ [1, 1]⟩) := by
  constructor
  · unfold addEdge
    split_ifs with h
    · simp
      omega
    · simp
      omega
  · intro h
    rw [addEdge, if_pos h]
    simp [addPoint]

/-- Witness for the amended C8 theorem at a six-value parameter list. -/
theorem addEdge_appends_two_columns_witness :
    6 ≤ ([2, 3, 4, 5, 6, 7] : List ℚ).length
    ∧ addEdge emptyMatrix [2, 3, 4, 5, 6, 7] =
        some ⟨[2, 5], [3, 6], [4, 7], [1, 1]⟩ :=
  ⟨by decide,
    by simpa [emptyMatrix] using
      (addEdge_appends_two_columns emptyMatrix [2, 3, 4, 5, 6, 7]).2 (by decide)⟩

/-- C9: starting from a matrix whose every column has w-component 1, each
edge-matrix builder (`AddPoint`, `AddEdge`, `AddCircle`, `AddCurve`)
preserves the invariant — all columns of the result, including the appended
ones, have w = 1. -/
theorem builders_preserve_w_one (m : EdgeMatrix) (hm : ∀ w ∈ m.ws, w = 1) :
    (∀ x y z : ℚ, ∀ w ∈ (addPoint m x y z).ws, w = 1)
    ∧ (∀ (ps : List ℚ) (m' : EdgeMatrix), addEdge m ps = some m' →
        ∀ w ∈ m'.ws, w = 1)
    ∧ (∀ (f : FloatOps) (cx cy cz r : ℚ), ∀ w ∈ (addCircle f m cx cy cz r).ws, w = 1)
    ∧ (∀ (hM bM : List (List ℚ)) (x0 y0 x1 y1 x2 y2 x3 y3 step : ℚ) (ct : String),
        ∀ w ∈ (addCurve hM bM m x0 y0 x1 y1 x2 y2 x3 y3 step ct).1.ws, w = 1) := by
  have haddPoint : ∀ (m' : EdgeMatrix), (∀ w ∈ m'.ws, w = 1) →
      ∀ x y z : ℚ, ∀ w ∈ (addPoint m' x y z).ws, w = 1 := by
    intro m' hm' x y z w hw
    rcases List.mem_append.mp hw with h | h
    · exact hm' w h
    · simpa using h
  refine ⟨haddPoint m hm, ?_, ?_, ?_⟩
  · intro ps m' hsome
    rw [addEdge] at hsome
    split_ifs at hsome with h
    have h' := Option.some.inj hsome
    subst h'
    exact haddPoint _ (haddPoint m hm _ _ _) _ _ _
  · intro f cx cy cz r
    exact appendPoints_ws_one _ m hm
  · intro hM bM x0 y0 x1 y1 x2 y2 x3 y3 step ct
    rw [addCurve]
    split_ifs
    · exact appendPoints_ws_one _ m hm
    · exact appendPoints_ws_one _ m hm
    · exact hm

/-- Witness for C9 starting from the empty matrix. -/
theorem builders_preserve_w_one_witness :
    (∀ w ∈ emptyMatrix.ws, w = 1)
    ∧ ((∀ x y z : ℚ, ∀ w ∈ (addPoint emptyMatrix x y z).ws, w = 1)
      ∧ (∀ (ps : List ℚ) (m' : EdgeMatrix), addEdge emptyMatrix ps = some m' →
          ∀ w ∈ m'.ws, w = 1)
      ∧ (∀ (f : FloatOps) (cx cy cz r : ℚ),
          ∀ w ∈ (addCircle f emptyMatrix cx cy cz r).ws, w = 1)
      ∧ (∀ (hM bM : List (List ℚ)) (x0 y0 x1 y1 x2 y2 x3 y3 step : ℚ) (ct : String),
          ∀ w ∈ (addCurve hM bM emptyMatrix x0 y0 x1 y1 x2 y2 x3 y3 step ct).1.ws,
            w = 1)) :=
  ⟨by simp [emptyMatrix], builders_preserve_w_one emptyMatrix (by simp [emptyMatrix])⟩

/-- C10: on an edge matrix with fewer than two columns, `DrawLines` draws no
segment at all — the loop body never runs and the screen is returned
unchanged. -/
theorem drawLines_short_matrix (XRES YRES : ℤ) (edges : EdgeMatrix) (s : Screen)
    (h : edges.xs.length ≤ 1) : drawLines XRES YRES edges s = s := by
  unfold drawLines
  have h0 : edges.xs.length - 1 = 0 := by omega
  rw [h0]
  rfl

/-- Witness for C10 on a one-column matrix. -/
theorem drawLines_short_matrix_witness :
    (addPoint emptyMatrix 1 2 3).xs.length ≤ 1
    ∧ drawLines 500 500 (addPoint emptyMatrix 1 2 3) blankScreen = blankScreen :=
  ⟨by simp [addPoint, emptyMatrix],
    drawLines_short_matrix 500 500 (addPoint emptyMatrix 1 2 3) blankScreen
      (by simp [addPoint, emptyMatrix])⟩

theorem tSamples_half : tSamples (1/2) (0:ℚ) = [0, 1/2] := by
  rw [tSamples, dif_pos (by norm_num), dif_pos (by norm_num)]
  norm_num
  rw [tSamples, dif_pos (by norm_num), dif_pos (by norm_num)]
  norm_num
  rw [tSamples, dif_pos (by norm_num), dif_neg (by norm_num)]

/-- C2 fails on the code: the `switch` in `AddCurve` hands `"hermite"` to the
Bezier basis constructor of the collaborator and `"bezier"` to the Hermite one —
the points appended always come from the basis-coefficient matrix of the *other*
family, and on a concrete hermite call the result differs from the
claim-described `addCurveSpec` (which selects the Hermite basis for
`"hermite"`). -/
theorem addCurve_swaps_basis_matrices :
    (∀ (hM bM : List (List ℚ)) (m : EdgeMatrix) (x0 y0 x1 y1 x2 y2 x3 y3 step : ℚ),
      addCurve hM bM m x0 y0 x1 y1 x2 y2 x3 y3 step hermiteStr =
        (appendPoints m (curveSamples bM x0 y0 x1 y1 x2 y2 x3 y3 step), none)
      ∧ addCurve hM bM m x0 y0 x1 y1 x2 y2 x3 y3 step bezierStr =
        (appendPoints m (curveSamples hM x0 y0 x1 y1 x2 y2 x3 y3 step), none))
    ∧ addCurve hermiteBasis bezierBasis emptyMatrix 1 0 0 0 0 0 0 0 (1/2) hermiteStr ≠
        addCurveSpec hermiteBasis bezierBasis emptyMatrix 1 0 0 0 0 0 0 0 (1/2)
          hermiteStr := by
  constructor
  · intro hM bM m x0 y0 x1 y1 x2 y2 x3 y3 step
    constructor
    · rw [addCurve, if_pos rfl]
    · rw [addCurve, if_neg (by decide), if_pos rfl]
  · intro hcon
    rw [addCurve, if_pos rfl, addCurveSpec, if_pos rfl] at hcon
    simp only [curveSamples, tSamples_half] at hcon
    norm_num [rowMulSpec, cubicEval, appendPoints, addPoint, emptyMatrix,
      hermiteBasis, bezierBasis, List.range_succ, EdgeMatrix.mk.injEq,
      List.getD_cons_zero, List.getD_cons_succ, Prod.ext_iff] at hcon

/-- Witness instantiating the code-behavior part of the C2 theorem at the
failing hermite call. -/
theorem addCurve_swaps_basis_matrices_witness :
    addCurve hermiteBasis bezierBasis emptyMatrix 1 0 0 0 0 0 0 0 (1/2) hermiteStr =
      (appendPoints emptyMatrix (curveSamples bezierBasis 1 0 0 0 0 0 0 0 (1/2)),
        none) :=
  (addCurve_swaps_basis_matrices.1 hermiteBasis bezierBasis emptyMatrix
    1 0 0 0 0 0 0 0 (1/2)).1

end Draw
